import Mathlib

set_option maxHeartbeats 1000000

/-!
Shallow embedding of the prompt-mixer Anthropic connector.

The repository ships several near-identical connector variants:
 * the "plain" variant (part_000): per-prompt loop, image/PDF attachments,
   thinking support, a retry-on-429 do/while loop, errors rethrown;
 * the "tool" variant (part_001, first file): MCP tool discovery and routing,
   a recursive `processModelRequest` turn executor;
 * the minimal variant (part_002): text only, normalizer without a
   requested-model fallback.

The provider network call is modelled by a finite script of provider
behaviours (`ProviderStep`), consumed one entry per attempted call; tool
invocations are modelled by an oracle function; the local file reads of the
attachment encoder are modelled by an abstract byte-resolution parameter.
All definitions below are translated from the TypeScript source; the few
definitions written from the spec's words (for refinement comparisons) are
marked as such in their doc comments.
-/

namespace Connector

/-- Role of a conversation turn (source: `Message.role`). -/
inductive Role
  | user
  | assistant
deriving DecidableEq, Repr

/-- A tool-use request block (source: `ToolUseContent`); `input` is the
tool's argument object, kept opaque as its serialized form. -/
structure ToolUseContent where
  id : String
  name : String
  input : String
deriving DecidableEq, Repr

/-- Content blocks appearing in conversation messages (source: the
`ContentBlock` union of the tool variant; `data` fields hold base64 text). -/
inductive ContentBlock
  | text (t : String)
  | image (mediaType : String) (data : String)
  | document (data : String)
  | toolResult (toolUseId : String) (content : String)
  | toolUse (id : String) (name : String) (input : String)
deriving DecidableEq, Repr

/-- One conversation turn (source: `Message`). -/
structure Message where
  role : Role
  content : List ContentBlock
deriving DecidableEq, Repr

/-- Content blocks of a provider response (source: `AnthropicResponse.content`). -/
inductive RespContent
  | text (t : String)
  | thinking (thinking : String) (signature : String)
  | toolUse (id : String) (name : String) (input : String)
deriving DecidableEq, Repr

/-- Per-prompt outcome (source: `ChatCompletion | ErrorCompletion`;
`chat` keeps `output` and `stats`, `error` keeps the error message and the
requested model, as built by `mapErrorToCompletion`). -/
inductive Output
  | chat (output : String) (model : String) (inputTokens outputTokens : Nat)
  | error (msg : String) (model : String)
deriving DecidableEq, Repr

/-- One slot of the host-facing response (source: `Completion`;
`undefined`/`null` are both modelled as `none`). -/
structure Completion where
  Content : Option String
  TokenUsage : Option Nat
deriving DecidableEq, Repr

/-- The host-facing response (source: `ConnectorResponse`). -/
structure ConnectorResponse where
  Completions : List Completion
  ModelType : String
deriving DecidableEq, Repr

/-- Response normalizer of the plain and tool variants (source:
`mapToResponse(outputs, model)` of part_000 / part_001). -/
def mapToResponse (outputs : List Output) (model : String) : ConnectorResponse :=
  { Completions := outputs.map (fun o =>
      match o with
      | .error _ _ => { Content := none, TokenUsage := none }
      | .chat out _ i j => { Content := some out, TokenUsage := some (i + j) }),
    ModelType :=
      match outputs with
      | [] => model
      | .error _ _ :: _ => model
      | .chat _ m _ _ :: _ => m }

/-- Success outcome of the minimal variant (source: part_002 `ChatCompletion`;
that variant has no error completions). -/
structure ChatCompletion2 where
  output : String
  model : String
  inputTokens : Nat
  outputTokens : Nat
deriving DecidableEq, Repr

/-- Response normalizer of the minimal variant (source: part_002
`mapToResponse(outputs)`).  It reads `outputs[0].stats.model` unconditionally,
so on an empty outcome list the JavaScript code throws a `TypeError`; the
throw is modelled as `none`. -/
def mapToResponse2 (outputs : List ChatCompletion2) : Option ConnectorResponse :=
  match outputs with
  | [] => none
  | first :: _ =>
      some { Completions := outputs.map (fun o =>
               { Content := some o.output, TokenUsage := some (o.inputTokens + o.outputTokens) }),
             ModelType := first.model }

/-- Slot mapping as the spec words it (§4.4): Success ↦ content/token sum,
Failure ↦ null/null.  Used to compare `mapToResponse` against the spec. -/
def specCompletion : Output → Completion
  | .chat out _ i j => { Content := some out, TokenUsage := some (i + j) }
  | .error _ _ => { Content := none, TokenUsage := none }

/-- Model-type rule as the spec words it (§4.4): the first outcome's model if
it is a Success, else the requested model (also for an empty list). -/
def specModelType (outputs : List Output) (model : String) : String :=
  match outputs.head? with
  | none => model
  | some (.error _ _) => model
  | some (.chat _ m _ _) => m

/-- C6: the normalizer maps each Success outcome to
`{content: text, tokenUsage: inputTokens+outputTokens}` and each Failure
outcome to `{content: null, tokenUsage: null}`, preserving list order
(slot `i` of the response comes from outcome `i`). -/
theorem C6_normalizer_slots :
    ∀ (outputs : List Output) (model : String),
      (mapToResponse outputs model).Completions.length = outputs.length
      ∧ ∀ i : Nat,
          (mapToResponse outputs model).Completions.get? i
            = (outputs.get? i).map specCompletion := by
  intro outputs model
  constructor
  · simp [mapToResponse]
  · intro i
    have hfun : (fun o => match o with
        | Output.error _ _ => ({ Content := none, TokenUsage := none } : Completion)
        | Output.chat out _ i j => { Content := some out, TokenUsage := some (i + j) })
        = specCompletion := by
      funext o
      cases o <;> rfl
    simp only [mapToResponse, List.get?_eq_getElem?, List.getElem?_map, hfun]

/-- C7 counterexample: the claim also covers the minimal variant's normalizer
(part_002, cited lines 40-48), which reads `outputs[0].stats.model` without
any emptiness or failure guard.  On the empty outcome list it therefore
throws a `TypeError` (modelled as `none`) instead of returning a response
whose `modelType` is the originally requested model identifier. -/
theorem C7_counterexample : mapToResponse2 [] = none := rfl

/-- C7 amended: the normalizers of the plain and tool variants, which receive
the requested model, report the first outcome's model when it is a Success
and fall back to the requested model when the first outcome is a Failure or
the outcome list is empty; the minimal variant's normalizer takes no
requested model, always reports the first outcome's model, and produces no
response at all on an empty outcome list. -/
theorem C7_amended :
    (∀ (outputs : List Output) (model : String),
       (mapToResponse outputs model).ModelType = specModelType outputs model)
    ∧ (∀ (o : ChatCompletion2) (os : List ChatCompletion2),
         mapToResponse2 (o :: os)
           = some { Completions := (o :: os).map (fun c =>
                      { Content := some c.output,
                        TokenUsage := some (c.inputTokens + c.outputTokens) }),
                    ModelType := o.model })
    ∧ mapToResponse2 [] = none := by
  refine ⟨?_, ?_, rfl⟩
  · intro outputs model
    match outputs with
    | [] => rfl
    | .error _ _ :: _ => rfl
    | .chat _ _ _ _ :: _ => rfl
  · intro o os
    rfl

/-! ## Provider model

Each attempted `anthropic.messages.create` call consumes the next entry of a
finite behaviour script: a 429 rate-limit rejection (carrying the error
message), some other rejection, or a successful `AnthropicResponse`. -/

/-- One scripted provider behaviour. -/
inductive ProviderStep
  | rateLimit (msg : String)
  | err (msg : String)
  | ok (content : List RespContent) (inputTokens outputTokens : Nat) (respModel : String)
deriving DecidableEq, Repr

/-! ## Plain variant (part_000): response processing and retry loop -/

/-- Successful-response processing of the plain variant (part_000 lines
236-262): one pass over the content builds the thinking buffer (each
thinking block suffixed with a newline) while mapping blocks to their text
(`''` for non-text blocks); the visible answer joins the non-empty pieces
with a newline; the final output prefixes a non-empty thinking buffer with
one more newline in between.  Returns (visible answer, final output): the
visible answer is what is appended to the history, the final output is what
is recorded in the outcome. -/
def processOk000 (content : List RespContent) : String × String :=
  let tc := content.foldl (fun acc c =>
      match c with
      | .thinking th _ => acc ++ th ++ "\n"
      | _ => acc) ""
  let pieces := content.map (fun c =>
      match c with
      | .text t => t
      | _ => "")
  let ar := String.intercalate "\n" (pieces.filter (fun s => s != ""))
  (ar, if tc != "" then tc ++ "\n" ++ ar else ar)

/-- How the per-prompt do/while loop of the plain variant ends:
`broke` = success (the `break` statement), `exhausted` = the `while
(retries > 0)` condition became false after the third consecutive 429 (the
loop ends with no outcome recorded), `thrown` = a terminal error was pushed
and rethrown, `noScript` = the behaviour script ran out (the run is not
modelled further). -/
inductive PromptResult
  | broke
  | exhausted
  | thrown (msg : String)
  | noScript
deriving DecidableEq, Repr

/-- Mutable state threaded through the plain variant's run: remaining
provider script, number of provider calls made so far, conversation history,
and collected outcomes. -/
structure LoopSt where
  script : List ProviderStep
  calls : Nat
  history : List Message
  outputs : List Output
deriving Repr

/-- The per-prompt retry do/while loop of the plain variant (part_000 lines
211-284).  `retries` starts at 3.  A success pushes the assistant turn and a
Success outcome and breaks; a 429 with `retries > 0` decrements and loops
only while the decremented budget is still positive (the source's
`while (retries > 0)` guard); any other error - or a 429 with the budget
already at 0 - pushes a Failure outcome and throws. -/
def retryLoop000 (model : String) : Nat → LoopSt → LoopSt × PromptResult
  | _, ⟨[], calls, hist, outs⟩ => (⟨[], calls, hist, outs⟩, .noScript)
  | _, ⟨.ok content inTok outTok _ :: rest, calls, hist, outs⟩ =>
      let pr := processOk000 content
      (⟨rest, calls + 1,
        hist ++ [{ role := .assistant, content := [.text pr.1] }],
        outs ++ [.chat pr.2 model inTok outTok]⟩, .broke)
  | _, ⟨.err m :: rest, calls, hist, outs⟩ =>
      (⟨rest, calls + 1, hist, outs ++ [.error m model]⟩, .thrown m)
  | 0, ⟨.rateLimit m :: rest, calls, hist, outs⟩ =>
      (⟨rest, calls + 1, hist, outs ++ [.error m model]⟩, .thrown m)
  | r + 1, ⟨.rateLimit _ :: rest, calls, hist, outs⟩ =>
      if r > 0 then retryLoop000 model r ⟨rest, calls + 1, hist, outs⟩
      else (⟨rest, calls + 1, hist, outs⟩, .exhausted)

/-- Result of one whole invocation of a `main` variant: a returned
`ConnectorResponse`, a rethrown error, an exhausted behaviour script, or the
implicit `undefined` return of the tool variant. -/
inductive MainResult
  | resp (r : ConnectorResponse)
  | thrown (msg : String)
  | noScript
  | undef
deriving DecidableEq, Repr

/-- Observable outcome of a `main` invocation: its result, the number of
provider calls performed, and whether all opened tool connections were
closed (the `finally` block of the tool variant). -/
structure MainOut where
  result : MainResult
  calls : Nat
  closedClients : Bool
deriving DecidableEq, Repr

/-- The user turn appended for one prompt: the prompt text block followed by
the resolved attachment blocks.  `resolveAtt` abstracts the attachment
scanning/encoding pipeline (`extractUrls` + `encodeImage`/`encodePDF`),
whose file reads are an external capability. -/
def userMsg (resolveAtt : String → List ContentBlock) (p : String) : Message :=
  { role := .user, content := .text p :: resolveAtt p }

/-- The prompt loop of the plain variant's `main` (part_000 lines 172-291):
per prompt, push the user turn and run the retry loop; `broke` and
`exhausted` both continue with the next prompt (the silent-skip behaviour of
the source), a thrown error aborts the whole run (the outer catch
rethrows). -/
def main000Loop (model : String) (resolveAtt : String → List ContentBlock) :
    List String → LoopSt → LoopSt × MainResult
  | [], st => (st, .resp (mapToResponse st.outputs model))
  | p :: rest, st =>
      match retryLoop000 model 3 { st with history := st.history ++ [userMsg resolveAtt p] } with
      | (st2, .broke) => main000Loop model resolveAtt rest st2
      | (st2, .exhausted) => main000Loop model resolveAtt rest st2
      | (st2, .thrown m) => (st2, .thrown m)
      | (st2, .noScript) => (st2, .noScript)

/-- Entry point of the plain variant (part_000 `main`). -/
def main000 (model : String) (resolveAtt : String → List ContentBlock)
    (script : List ProviderStep) (prompts : List String) : MainOut :=
  let r := main000Loop model resolveAtt prompts ⟨script, 0, [], []⟩
  { result := r.2, calls := r.1.calls, closedClients := true }

/-! ## Tool variant (part_001): `processModelRequest` -/

/-- Serialization of a tool-use block as embedded in the visible transcript
(source: `JSON.stringify(content, null, 2)`; the exact pretty-printing of
the JSON object is abstracted into this fixed-shape rendering). -/
def jsonOfToolUse (c : ToolUseContent) : String :=
  "\x7b \"type\": \"tool_use\", \"id\": \"" ++ c.id ++ "\", \"name\": \"" ++ c.name ++
    "\", \"input\": " ++ c.input ++ " \x7d"

/-- The human-readable tool-call rendering appended to the visible answer
(part_001 line 266). -/
def renderToolCall (c : ToolUseContent) : String :=
  "\n\nCalling tool:\n\n```json\n" ++ jsonOfToolUse c ++ "\n```\n\n"

/-- The human-readable tool-result rendering appended to the visible answer
(part_001 line 272); `resultJson` stands for the serialized tool result. -/
def renderToolResult (resultJson : String) : String :=
  "\n\nTool calling result:\n\n```json\n" ++ resultJson ++ "\n```\n\n"

/-- Accumulator of the response-content loop of `processModelRequest`
(part_001 lines 248-289): visible answer, thinking buffer, tool-use blocks
collected for dispatch, and the conversation history (which gains one
assistant turn per tool-use block during the loop). -/
structure ContentAcc where
  ar : String
  tc : String
  tus : List ToolUseContent
  hist : List Message
deriving DecidableEq, Repr

/-- The response-content loop of `processModelRequest` (part_001 lines
255-289): text appends to the answer, thinking appends (newline-suffixed)
to the thinking buffer, a tool-use block pushes an assistant turn holding
it, appends the tool-call rendering to the answer, and registers the block
for dispatch. -/
def contentLoop001 (acc : ContentAcc) : List RespContent → ContentAcc
  | [] => acc
  | .text t :: rest => contentLoop001 { acc with ar := acc.ar ++ t } rest
  | .thinking th _ :: rest => contentLoop001 { acc with tc := acc.tc ++ th ++ "\n" } rest
  | .toolUse i n inp :: rest =>
      contentLoop001 { acc with
        hist := acc.hist ++ [{ role := .assistant, content := [.toolUse i n inp] }],
        ar := acc.ar ++ renderToolCall ⟨i, n, inp⟩,
        tus := acc.tus ++ [⟨i, n, inp⟩] } rest

/-- Result of dispatching the collected tool calls: all succeeded (with the
final answer text and history), or one rejected - its error is what the
surrounding catch receives.  The concurrent fan-out of the source is
modelled by the deterministic request-order schedule: each completed call
appends its result rendering and its tool-result user turn in order. -/
inductive ToolsResult
  | done (ar : String) (hist : List Message)
  | failedCall (e : String) (ar : String) (hist : List Message)
deriving DecidableEq, Repr

/-- Dispatch of the collected tool-use blocks (part_001 lines 269-291):
for each block, invoke the tool; on success append the result rendering to
the answer and push a user turn holding a `tool_result` block whose
`tool_use_id` is the originating block's id. -/
def runTools001 (toolCall : ToolUseContent → Except String String) :
    String → List Message → List ToolUseContent → ToolsResult
  | ar, hist, [] => .done ar hist
  | ar, hist, u :: rest =>
      match toolCall u with
      | .ok res =>
          runTools001 toolCall (ar ++ renderToolResult res)
            (hist ++ [{ role := .user, content := [.toolResult u.id res] }]) rest
      | .error e => .failedCall e ar hist

/-- Result of processing one successful provider response in the tool
variant: the updated history and outcomes, and whether any tool-use block
was present (which triggers another round); `failed` is the catch branch
taken when a dispatched tool call rejects. -/
inductive StepRes
  | success (hist : List Message) (outs : List Output) (hadTools : Bool)
  | failed (hist : List Message) (outs : List Output)
deriving DecidableEq, Repr

/-- Processing of one successful provider response in `processModelRequest`
(part_001 lines 247-306): run the content loop, dispatch the tool calls,
build the final output (a non-empty thinking buffer is prefixed with one
more newline in between), and record one Success outcome.  A rejected tool
call is caught by the surrounding catch, which records a Failure outcome
instead. -/
def step001 (model : String) (toolCall : ToolUseContent → Except String String)
    (content : List RespContent) (inTok outTok : Nat)
    (hist : List Message) (outs : List Output) : StepRes :=
  let acc := contentLoop001 { ar := "", tc := "", tus := [], hist := hist } content
  match runTools001 toolCall acc.ar acc.hist acc.tus with
  | .failedCall e _ hist2 => .failed hist2 (outs ++ [.error e model])
  | .done ar2 hist2 =>
      let finalOutput := if acc.tc != "" then acc.tc ++ "\n" ++ ar2 else ar2
      .success hist2 (outs ++ [.chat finalOutput model inTok outTok]) (!acc.tus.isEmpty)

/-- Run state of `processModelRequest` as observed when it returns:
remaining script, calls made, history, outcomes, and whether the executor
actually returned (`completed = false` means the behaviour script ran out
mid-run and the model is not defined further). -/
structure RunSt where
  script : List ProviderStep
  calls : Nat
  history : List Message
  outputs : List Output
  completed : Bool
deriving Repr

/-- The recursive turn executor of the tool variant (part_001 lines
234-319).  `retries` starts at 3; a 429 with `retries > 0` recurses with
`retries - 1`, a 429 at 0 or any other error records a Failure outcome and
returns; a successful response records a Success outcome and, when it
contained tool-use blocks, recurses for another round with the retry budget
reset to its default 3. -/
def processModelRequest001 (model : String)
    (toolCall : ToolUseContent → Except String String) :
    List ProviderStep → Nat → Nat → List Message → List Output → RunSt
  | [], _, calls, hist, outs =>
      { script := [], calls := calls, history := hist, outputs := outs, completed := false }
  | .rateLimit _ :: rest, r + 1, calls, hist, outs =>
      processModelRequest001 model toolCall rest r (calls + 1) hist outs
  | .rateLimit m :: rest, 0, calls, hist, outs =>
      { script := rest, calls := calls + 1, history := hist,
        outputs := outs ++ [.error m model], completed := true }
  | .err m :: rest, _, calls, hist, outs =>
      { script := rest, calls := calls + 1, history := hist,
        outputs := outs ++ [.error m model], completed := true }
  | .ok content inTok outTok _ :: rest, _, calls, hist, outs =>
      match step001 model toolCall content inTok outTok hist outs with
      | .failed h2 o2 =>
          { script := rest, calls := calls + 1, history := h2, outputs := o2, completed := true }
      | .success h2 o2 hadTools =>
          if hadTools then
            processModelRequest001 model toolCall rest 3 (calls + 1) h2 o2
          else
            { script := rest, calls := calls + 1, history := h2, outputs := o2, completed := true }

/-- Entry point of the tool variant (part_001 `main`, lines 330-421).
The source's `for` loop body ends in an unconditional
`return mapToResponse(outputs, model)`, so only the first prompt is ever
processed; with an empty prompt list the loop body never runs and the
function returns `undefined`.  The `finally` block closes every opened tool
connection on all paths (`closedClients := true`). -/
def main001 (model : String) (resolveAtt : String → List ContentBlock)
    (toolCall : ToolUseContent → Except String String)
    (script : List ProviderStep) (prompts : List String) : MainOut :=
  match prompts with
  | [] => { result := .undef, calls := 0, closedClients := true }
  | p :: _ =>
      let rs := processModelRequest001 model toolCall script 3 0 [userMsg resolveAtt p] []
      { result := if rs.completed then .resp (mapToResponse rs.outputs model) else .noScript,
        calls := rs.calls, closedClients := true }

/-! ## Closed forms of the tool variant's step processing -/

/-- The tool-use blocks of a response, in order. -/
def tusOf : List RespContent → List ToolUseContent
  | [] => []
  | .toolUse i n inp :: rest => ⟨i, n, inp⟩ :: tusOf rest
  | _ :: rest => tusOf rest

/-- The thinking buffer of a response: each thinking block's text suffixed
with a newline, concatenated in order. -/
def thinkBufOf : List RespContent → String
  | [] => ""
  | .thinking th _ :: rest => th ++ "\n" ++ thinkBufOf rest
  | _ :: rest => thinkBufOf rest

/-- The visible answer accumulated by the content loop: text blocks
concatenated in order, tool-use blocks contributing their call rendering. -/
def arLoopOf : List RespContent → String
  | [] => ""
  | .text t :: rest => t ++ arLoopOf rest
  | .toolUse i n inp :: rest => renderToolCall ⟨i, n, inp⟩ ++ arLoopOf rest
  | _ :: rest => arLoopOf rest

/-- The concatenated result renderings of the dispatched tool calls, where
`f` gives each call's (serialized) result. -/
def resultsRender (f : ToolUseContent → String) : List ToolUseContent → String
  | [] => ""
  | u :: rest => renderToolResult (f u) ++ resultsRender f rest

/-- The assistant turn pushed for one tool-use block. -/
def assistantTurnOf (u : ToolUseContent) : Message :=
  { role := .assistant, content := [.toolUse u.id u.name u.input] }

/-- The user turn pushed for one completed tool call: a `tool_result` block
referencing the originating block's id. -/
def resultTurnOf (f : ToolUseContent → String) (u : ToolUseContent) : Message :=
  { role := .user, content := [.toolResult u.id (f u)] }

/-- Closed form of the final output of one successful step of the tool
variant (thinking buffer, one separating newline, then the visible
answer). -/
def stepFinal001 (f : ToolUseContent → String) (content : List RespContent) : String :=
  if thinkBufOf content != "" then
    thinkBufOf content ++ "\n" ++ (arLoopOf content ++ resultsRender f (tusOf content))
  else arLoopOf content ++ resultsRender f (tusOf content)

theorem contentLoop001_spec (cs : List RespContent) :
    ∀ acc : ContentAcc,
      contentLoop001 acc cs =
        { ar := acc.ar ++ arLoopOf cs, tc := acc.tc ++ thinkBufOf cs,
          tus := acc.tus ++ tusOf cs,
          hist := acc.hist ++ (tusOf cs).map assistantTurnOf } := by
  induction cs with
  | nil =>
      intro acc
      simp [contentLoop001, arLoopOf, thinkBufOf, tusOf]
  | cons c rest ih =>
      intro acc
      cases c with
      | text t =>
          simp [contentLoop001, ih, arLoopOf, thinkBufOf, tusOf, String.append_assoc]
      | thinking th sig =>
          simp [contentLoop001, ih, arLoopOf, thinkBufOf, tusOf, String.append_assoc]
      | toolUse i n inp =>
          simp [contentLoop001, ih, arLoopOf, thinkBufOf, tusOf, assistantTurnOf,
            String.append_assoc, List.append_assoc]

theorem runTools001_ok (f : ToolUseContent → String) :
    ∀ (tus : List ToolUseContent) (ar : String) (hist : List Message),
      runTools001 (fun u => .ok (f u)) ar hist tus
        = .done (ar ++ resultsRender f tus) (hist ++ tus.map (resultTurnOf f)) := by
  intro tus
  induction tus with
  | nil =>
      intro ar hist
      simp [runTools001, resultsRender]
  | cons u rest ih =>
      intro ar hist
      simp [runTools001, ih, resultsRender, resultTurnOf, String.append_assoc,
        List.append_assoc]

theorem step001_ok (model : String) (f : ToolUseContent → String)
    (content : List RespContent) (inTok outTok : Nat)
    (hist : List Message) (outs : List Output) :
    step001 model (fun u => .ok (f u)) content inTok outTok hist outs
      = .success
          (hist ++ (tusOf content).map assistantTurnOf ++ (tusOf content).map (resultTurnOf f))
          (outs ++ [.chat (stepFinal001 f content) model inTok outTok])
          (!(tusOf content).isEmpty) := by
  unfold step001
  rw [contentLoop001_spec]
  simp only
  rw [runTools001_ok]
  simp [stepFinal001, String.empty_append]

/-- Concatenation of a list of strings (closed form for text-only
responses of the tool variant). -/
def concatStrs : List String → String
  | [] => ""
  | s :: rest => s ++ concatStrs rest

theorem tusOf_texts (texts : List String) :
    tusOf (texts.map RespContent.text) = [] := by
  induction texts with
  | nil => rfl
  | cons t rest ih => simp [tusOf, ih]

theorem thinkBufOf_texts (texts : List String) :
    thinkBufOf (texts.map RespContent.text) = "" := by
  induction texts with
  | nil => rfl
  | cons t rest ih => simp [thinkBufOf, ih]

theorem arLoopOf_texts (texts : List String) :
    arLoopOf (texts.map RespContent.text) = concatStrs texts := by
  induction texts with
  | nil => rfl
  | cons t rest ih => simp [arLoopOf, concatStrs, ih]

theorem step001_texts (model : String) (f : ToolUseContent → String)
    (texts : List String) (inTok outTok : Nat)
    (hist : List Message) (outs : List Output) :
    step001 model (fun u => Except.ok (f u)) (texts.map RespContent.text) inTok outTok hist outs
      = .success hist (outs ++ [.chat (concatStrs texts) model inTok outTok]) false := by
  rw [step001_ok]
  simp [tusOf_texts, thinkBufOf_texts, arLoopOf_texts, stepFinal001, resultsRender,
    String.append_empty]

/-- C2 counterexample: the claim also covers the plain variant's retry loop
(part_000 lines 211-284, cited by the claim).  Facing 4 consecutive
rate-limit failures that loop performs only 3 provider calls - the
`while (retries > 0)` guard becomes false after the third 429 before a
fourth attempt is made - and exits recording NO outcome at all for the
prompt, not a Failure outcome after 4 calls as the claim states.  The
state below shows: 3 calls consumed, the fourth scripted 429 untouched,
outputs unchanged, and the loop ending by exhaustion. -/
theorem C2_counterexample :
    retryLoop000 "claude-3-opus-20240229" 3
        ⟨[.rateLimit "429 a", .rateLimit "429 b", .rateLimit "429 c", .rateLimit "429 d"],
         0, [], []⟩
      = (⟨[.rateLimit "429 d"], 3, [], []⟩, .exhausted) := rfl

/-- C2 amended: the recursive turn executor of the tool variant behaves as
the claim states (2 rate-limit failures then a success give exactly 3 calls
and a Success outcome; 4 consecutive rate-limit failures give exactly 4
calls and then a Failure outcome).  The plain variant's do/while executor
matches the success half (exactly 3 calls and a Success outcome) but, on
persistent rate-limiting, exits after exactly 3 calls recording no outcome
for that prompt instead of making a fourth call and recording a Failure. -/
theorem C2_amended (model : String) (f : ToolUseContent → String)
    (texts : List String) (m1 m2 m3 m4 : String)
    (content : List RespContent) (inTok outTok : Nat) (respModel : String)
    (rest : List ProviderStep) (calls : Nat) (hist : List Message) (outs : List Output) :
    (processModelRequest001 model (fun u => Except.ok (f u))
        (.rateLimit m1 :: .rateLimit m2 ::
          .ok (texts.map RespContent.text) inTok outTok respModel :: rest)
        3 calls hist outs
      = { script := rest, calls := calls + 3, history := hist,
          outputs := outs ++ [.chat (concatStrs texts) model inTok outTok],
          completed := true })
    ∧ (processModelRequest001 model (fun u => Except.ok (f u))
        (.rateLimit m1 :: .rateLimit m2 :: .rateLimit m3 :: .rateLimit m4 :: rest)
        3 calls hist outs
      = { script := rest, calls := calls + 4, history := hist,
          outputs := outs ++ [.error m4 model], completed := true })
    ∧ (retryLoop000 model 3
        ⟨.rateLimit m1 :: .rateLimit m2 ::
          .ok content inTok outTok respModel :: rest, calls, hist, outs⟩
      = (⟨rest, calls + 3,
          hist ++ [{ role := .assistant, content := [.text (processOk000 content).1] }],
          outs ++ [.chat (processOk000 content).2 model inTok outTok]⟩, .broke))
    ∧ (retryLoop000 model 3
        ⟨.rateLimit m1 :: .rateLimit m2 :: .rateLimit m3 :: rest, calls, hist, outs⟩
      = (⟨rest, calls + 3, hist, outs⟩, .exhausted)) := by
  refine ⟨?_, rfl, rfl, rfl⟩
  have h1 : processModelRequest001 model (fun u => Except.ok (f u))
      (.rateLimit m1 :: .rateLimit m2 ::
        .ok (texts.map RespContent.text) inTok outTok respModel :: rest)
      3 calls hist outs
      = processModelRequest001 model (fun u => Except.ok (f u))
          (.ok (texts.map RespContent.text) inTok outTok respModel :: rest)
          1 (calls + 2) hist outs := rfl
  rw [h1]
  simp only [processModelRequest001, step001_texts]
  rfl

/-- Selector for the history component of a step result. -/
def stepHist : StepRes → List Message
  | .success h _ _ => h
  | .failed h _ => h

/-- The `tool_use_id` carried by the first User turn of a message list that
holds a single `tool_result` block, if any. -/
def firstUserToolId : List Message → Option String
  | [] => none
  | ⟨.user, [.toolResult tid _]⟩ :: _ => some tid
  | _ :: rest => firstUserToolId rest

/-- Tool-result oracle used by the C4 counterexample. -/
def c4Results : ToolUseContent → String := fun u => "r-" ++ u.id

/-- One step of the tool variant processing a response that carries TWO
tool-use blocks, from an empty history. -/
def c4Step : StepRes :=
  step001 "claude-3-opus-20240229" (fun u => Except.ok (c4Results u))
    [RespContent.toolUse "t1" "srv-a_lookup" "1", RespContent.toolUse "t2" "srv-b_fetch" "2"]
    1 2 [] []

/-- C4 counterexample: when one response carries two tool-use blocks
(ids "t1" and "t2"), the content loop pushes BOTH assistant turns before
any tool-result turn is appended, so the log reads
[Assistant t1, Assistant t2, User result(t1), User result(t2)].
For the block with id "t2" the next User turn after its Assistant turn
carries `tool_use_id = "t1"`, not "t2", refuting the claim's
"in the next User turn, a ToolResult block whose tool_use_id equals id"
for every block; the log also grows by 4 turns in this single tool-call
round, not 2. -/
theorem C4_counterexample :
    stepHist c4Step
      = [assistantTurnOf ⟨"t1", "srv-a_lookup", "1"⟩,
         assistantTurnOf ⟨"t2", "srv-b_fetch", "2"⟩,
         resultTurnOf c4Results ⟨"t1", "srv-a_lookup", "1"⟩,
         resultTurnOf c4Results ⟨"t2", "srv-b_fetch", "2"⟩]
    ∧ firstUserToolId ((stepHist c4Step).drop 2) = some "t1"
    ∧ ¬ firstUserToolId ((stepHist c4Step).drop 2) = some "t2" := by
  refine ⟨rfl, rfl, by decide⟩

/-- C4 amended: in one step of the tool variant, every ToolUse block yields
one Assistant turn holding exactly that block and one later User turn
holding a ToolResult block whose `tool_use_id` equals the block's id (the
turns appear as all the Assistant tool-use turns in request order followed
by the matching User tool-result turns in the same order), and the log
grows by exactly 2 turns per ToolUse block of the step; the matching
ToolResult is in the immediately following User turn only when the step
carries a single ToolUse block. -/
theorem C4_amended (model : String) (f : ToolUseContent → String)
    (content : List RespContent) (inTok outTok : Nat)
    (hist : List Message) (outs : List Output) :
    step001 model (fun u => Except.ok (f u)) content inTok outTok hist outs
      = .success
          (hist ++ (tusOf content).map assistantTurnOf
                ++ (tusOf content).map (resultTurnOf f))
          (outs ++ [.chat (stepFinal001 f content) model inTok outTok])
          (!(tusOf content).isEmpty)
    ∧ (hist ++ (tusOf content).map assistantTurnOf
            ++ (tusOf content).map (resultTurnOf f)).length
        = hist.length + 2 * (tusOf content).length := by
  refine ⟨step001_ok model f content inTok outTok hist outs, ?_⟩
  simp [List.length_append, List.length_map]
  omega

/-! ## C3: text / thinking composition -/

/-- A response piece that is either a text block or a thinking block (the
only kinds relevant to the output-composition claim). -/
inductive TTPiece
  | textPiece (t : String)
  | thinkPiece (th : String) (sig : String)
deriving DecidableEq, Repr

/-- Interpretation of a `TTPiece` as a response content block. -/
def ttToResp : TTPiece → RespContent
  | .textPiece t => .text t
  | .thinkPiece th sig => .thinking th sig

/-- Concatenation of the text pieces in order. -/
def ttTexts : List TTPiece → String
  | [] => ""
  | .textPiece t :: rest => t ++ ttTexts rest
  | _ :: rest => ttTexts rest

/-- The thinking buffer: each thinking piece suffixed with a newline,
concatenated in order. -/
def ttThink : List TTPiece → String
  | [] => ""
  | .thinkPiece th _ :: rest => th ++ "\n" ++ ttThink rest
  | _ :: rest => ttThink rest

/-- The non-empty text pieces in order (what the plain variant's
`filter(Boolean)` keeps before joining with a newline). -/
def ttPieces000 : List TTPiece → List String
  | [] => []
  | .textPiece t :: rest => if t != "" then t :: ttPieces000 rest else ttPieces000 rest
  | _ :: rest => ttPieces000 rest

theorem tusOf_tt (ps : List TTPiece) : tusOf (ps.map ttToResp) = [] := by
  induction ps with
  | nil => rfl
  | cons p rest ih => cases p <;> simp [ttToResp, tusOf, ih]

theorem thinkBufOf_tt (ps : List TTPiece) :
    thinkBufOf (ps.map ttToResp) = ttThink ps := by
  induction ps with
  | nil => rfl
  | cons p rest ih => cases p <;> simp [ttToResp, thinkBufOf, ttThink, ih]

theorem arLoopOf_tt (ps : List TTPiece) :
    arLoopOf (ps.map ttToResp) = ttTexts ps := by
  induction ps with
  | nil => rfl
  | cons p rest ih => cases p <;> simp [ttToResp, arLoopOf, ttTexts, ih]

theorem foldl_think_tt (ps : List TTPiece) :
    ∀ acc : String,
      (ps.map ttToResp).foldl (fun acc c =>
          match c with
          | .thinking th _ => acc ++ th ++ "\n"
          | _ => acc) acc
        = acc ++ ttThink ps := by
  induction ps with
  | nil => intro acc; simp [ttThink]
  | cons p rest ih =>
      intro acc
      cases p with
      | textPiece t =>
          simp only [List.map_cons, List.foldl_cons, ttToResp]
          rw [ih]
          rfl
      | thinkPiece th sig =>
          simp only [List.map_cons, List.foldl_cons, ttToResp]
          rw [ih]
          show acc ++ th ++ "\n" ++ ttThink rest = _
          simp [ttThink, String.append_assoc]

theorem pieces_filter_tt (ps : List TTPiece) :
    (((ps.map ttToResp).map (fun c =>
        match c with
        | RespContent.text t => t
        | _ => "")).filter (fun s => s != ""))
      = ttPieces000 ps := by
  induction ps with
  | nil => rfl
  | cons p rest ih =>
      cases p with
      | textPiece t =>
          simp only [List.map_cons, ttToResp, List.filter_cons]
          rw [ih]
          rfl
      | thinkPiece th sig =>
          simp only [List.map_cons, ttToResp, List.filter_cons]
          rw [ih]
          rfl

theorem processOk000_tt (ps : List TTPiece) :
    processOk000 (ps.map ttToResp)
      = (String.intercalate "\n" (ttPieces000 ps),
         if ttThink ps != "" then
           ttThink ps ++ "\n" ++ String.intercalate "\n" (ttPieces000 ps)
         else String.intercalate "\n" (ttPieces000 ps)) := by
  unfold processOk000
  simp only [foldl_think_tt, pieces_filter_tt, String.empty_append]

/-- C3 counterexample: for a response carrying one Thinking block
"reasoning..." and one Text block "a cat", both cited executors produce the
final output "reasoning...\n\na cat" - the thinking block is stored with a
trailing newline and the thinking buffer is joined to the text with one
MORE newline - not the claim's expected "reasoning...\na cat" with exactly
one delimiter. -/
theorem C3_counterexample :
    step001 "claude-3-opus-20240229" (fun _ => Except.ok "")
        [RespContent.thinking "reasoning..." "sig", RespContent.text "a cat"] 10 20 [] []
      = .success []
          [.chat "reasoning...\n\na cat" "claude-3-opus-20240229" 10 20] false
    ∧ (processOk000 [RespContent.thinking "reasoning..." "sig", RespContent.text "a cat"]).2
        = "reasoning...\n\na cat"
    ∧ ("reasoning...\n\na cat" : String) ≠ "reasoning...\na cat" := by
  refine ⟨rfl, rfl, by decide⟩

/-- C3 amended: for a successful response made of text and thinking blocks,
the tool variant's visible answer is the concatenation of the Text blocks in
original order; the thinking buffer concatenates the Thinking blocks in
order, each suffixed with one newline, and when non-empty it is prefixed to
the text with one additional separating newline (so the worked example
yields "reasoning...\n\na cat").  The plain variant differs in the text
part: it joins the NON-EMPTY Text blocks with a newline instead of plain
concatenation, and composes thinking the same way. -/
theorem C3_amended (ps : List TTPiece) (model : String)
    (f : ToolUseContent → String) (inTok outTok : Nat)
    (hist : List Message) (outs : List Output) :
    step001 model (fun u => Except.ok (f u)) (ps.map ttToResp) inTok outTok hist outs
      = .success hist
          (outs ++ [.chat
            (if ttThink ps != "" then ttThink ps ++ "\n" ++ ttTexts ps else ttTexts ps)
            model inTok outTok])
          false
    ∧ processOk000 (ps.map ttToResp)
        = (String.intercalate "\n" (ttPieces000 ps),
           if ttThink ps != "" then
             ttThink ps ++ "\n" ++ String.intercalate "\n" (ttPieces000 ps)
           else String.intercalate "\n" (ttPieces000 ps)) := by
  refine ⟨?_, processOk000_tt ps⟩
  rw [step001_ok]
  simp [tusOf_tt, thinkBufOf_tt, arLoopOf_tt, stepFinal001, resultsRender,
    String.append_empty]

/-! ## C1: completion slots per prompt -/

/-- A scripted successful provider response. -/
structure OkStep where
  content : List RespContent
  inTok : Nat
  outTok : Nat
  respModel : String
deriving DecidableEq, Repr

/-- Injection of a successful response into the behaviour script. -/
def mkOk (q : OkStep) : ProviderStep := .ok q.content q.inTok q.outTok q.respModel

/-- The Success outcome the plain variant records for one successful
response (`stats.model` is the requested model). -/
def chatOf (model : String) (q : OkStep) : Output :=
  .chat (processOk000 q.content).2 model q.inTok q.outTok

/-- The history growth of the plain variant across a run of successful
prompts: per prompt one user turn then one assistant turn. -/
def histDelta (resolveAtt : String → List ContentBlock) :
    List (String × OkStep) → List Message
  | [] => []
  | (p, q) :: rest =>
      userMsg resolveAtt p
        :: { role := .assistant, content := [.text (processOk000 q.content).1] }
        :: histDelta resolveAtt rest

theorem main000Loop_oks (model : String) (resolveAtt : String → List ContentBlock) :
    ∀ (pairs : List (String × OkStep)) (ps2 : List String) (rest : List ProviderStep)
      (calls : Nat) (hist : List Message) (outs : List Output),
      main000Loop model resolveAtt (pairs.map Prod.fst ++ ps2)
          ⟨pairs.map (fun pq => mkOk pq.2) ++ rest, calls, hist, outs⟩
        = main000Loop model resolveAtt ps2
            ⟨rest, calls + pairs.length, hist ++ histDelta resolveAtt pairs,
             outs ++ pairs.map (fun pq => chatOf model pq.2)⟩ := by
  intro pairs
  induction pairs with
  | nil =>
      intro ps2 rest calls hist outs
      simp [histDelta]
  | cons pq rest' ih =>
      intro ps2 rest calls hist outs
      obtain ⟨p, q⟩ := pq
      simp only [List.map_cons, List.cons_append]
      rw [show main000Loop model resolveAtt
            (p :: (rest'.map Prod.fst ++ ps2))
            ⟨mkOk q :: (rest'.map (fun pq => mkOk pq.2) ++ rest), calls, hist, outs⟩
          = main000Loop model resolveAtt (rest'.map Prod.fst ++ ps2)
              ⟨rest'.map (fun pq => mkOk pq.2) ++ rest, calls + 1,
               hist ++ [userMsg resolveAtt p]
                 ++ [{ role := .assistant,
                       content := [.text (processOk000 q.content).1] }],
               outs ++ [.chat (processOk000 q.content).2 model q.inTok q.outTok]⟩
          from rfl]
      rw [ih]
      congr 1
      simp only [LoopSt.mk.injEq, List.length_cons]
      refine ⟨trivial, by omega, by simp [histDelta, List.append_assoc], ?_⟩
      simp [chatOf, List.append_assoc]

/-- C1 counterexample: in the tool-enabled variant (part_001 `main`, cited
by the claim), the `return mapToResponse(outputs, model)` sits INSIDE the
prompt loop, so a call with TWO prompts returns after processing only the
first one: the returned response has a single completion slot, not one slot
per top-level prompt. -/
theorem C1_counterexample :
    main001 "claude-3-opus-20240229" (fun _ => []) (fun _ => Except.ok "")
        [.ok [RespContent.text "hi"] 1 2 "claude-3-opus-20240229"] ["first", "second"]
      = { result := .resp { Completions := [{ Content := some "hi", TokenUsage := some 3 }],
                            ModelType := "claude-3-opus-20240229" },
          calls := 1, closedClients := true }
    ∧ (["first", "second"] : List String).length = 2
    ∧ ([{ Content := some "hi", TokenUsage := some 3 }] : List Completion).length ≠ 2 := by
  refine ⟨rfl, rfl, by decide⟩

/-- C1 amended: in the plain variant, when every prompt is answered
successfully the returned response has exactly one completion slot per
top-level prompt, in prompt order, each carrying that prompt's output and
token sum; but a prompt that fails terminally makes `main` rethrow after
recording the failure outcome, so no response is returned at all and the
earlier successful slots are lost; and the tool-enabled variant returns
after its first prompt (see the counterexample). -/
theorem C1_amended (model : String) (resolveAtt : String → List ContentBlock)
    (pairs : List (String × OkStep)) (msg pLast : String) :
    ((main000 model resolveAtt (pairs.map (fun pq => mkOk pq.2)) (pairs.map Prod.fst)).result
        = .resp (mapToResponse (pairs.map (fun pq => chatOf model pq.2)) model))
    ∧ ((mapToResponse (pairs.map (fun pq => chatOf model pq.2)) model).Completions
        = pairs.map (fun pq =>
            { Content := some (processOk000 pq.2.content).2,
              TokenUsage := some (pq.2.inTok + pq.2.outTok) }))
    ∧ ((mapToResponse (pairs.map (fun pq => chatOf model pq.2)) model).Completions.length
        = (pairs.map Prod.fst).length)
    ∧ ((main000 model resolveAtt (pairs.map (fun pq => mkOk pq.2) ++ [.err msg])
          (pairs.map Prod.fst ++ [pLast])).result
        = .thrown msg) := by
  refine ⟨?_, ?_, ?_, ?_⟩
  · have h := main000Loop_oks model resolveAtt pairs [] [] 0 [] []
    simp only [List.append_nil, List.nil_append, Nat.zero_add] at h
    simp [main000, h, main000Loop]
  · simp [mapToResponse, List.map_map, Function.comp, chatOf]
  · simp [mapToResponse]
  · have h := main000Loop_oks model resolveAtt pairs [pLast] [.err msg] 0 [] []
    simp only [List.nil_append, Nat.zero_add] at h
    simp [main000, h, main000Loop, retryLoop000]

/-- C10: in the tool-enabled variant, an empty prompt list makes `main`
skip the loop entirely: no provider call is performed, every opened tool
connection is still closed by the `finally` block, and the function returns
`undefined` rather than a `ConnectorResponse` with an empty completion
list. -/
theorem C10_empty_prompts (model : String) (resolveAtt : String → List ContentBlock)
    (toolCall : ToolUseContent → Except String String) (script : List ProviderStep) :
    main001 model resolveAtt toolCall script []
      = { result := .undef, calls := 0, closedClients := true } := rfl

/-! ## Tool Registry (part_001 `initializeMCPClients` / `callTool`) -/

/-- Underscore-to-hyphen normalization of a provider name, character level
(source: `serverName.replace(/_/g, '-')`). -/
def normalizeChars (l : List Char) : List Char :=
  l.map (fun c => if c = '_' then '-' else c)

/-- Normalized provider name (source: `normalizedServerName`). -/
def normalizeServerName (s : String) : String :=
  String.mk (normalizeChars s.data)

/-- Qualified tool name as registered by the tool discovery (part_001 line
199): the normalized provider name, an underscore, then the raw tool
name. -/
def qualifyToolName (serverName rawToolName : String) : String :=
  String.mk (normalizeChars serverName.data ++ '_' :: rawToolName.data)

/-- Character-level model of JavaScript `String.prototype.split` with a
single-character separator: splits at every occurrence, empty segments
kept. -/
def splitOnChar (sep : Char) : List Char → List (List Char)
  | [] => [[]]
  | c :: cs =>
      if c = sep then [] :: splitOnChar sep cs
      else
        match splitOnChar sep cs with
        | [] => [[c]]
        | r :: rs => (c :: r) :: rs

/-- Character-level model of JavaScript `Array.prototype.join` with a
separator. -/
def joinSep (sep : List Char) : List (List Char) → List Char
  | [] => []
  | [x] => x
  | x :: y :: rest => x ++ sep ++ joinSep sep (y :: rest)

/-- A connected tool-provider client, exposed only through its `callTool`
capability (the network transport is external). -/
structure MCPClient where
  invoke : String → String → Except String String

/-- Lookup of a provider connection in the clients record. -/
def lookupClient : List (String × MCPClient) → String → Option MCPClient
  | [], _ => none
  | (n, c) :: rest, name => if n = name then some c else lookupClient rest name

/-- The provider-name component recovered by `callTool`
(source: `const [serverName, ...rest] = content.name.split('_')`). -/
def splitServer (name : String) : String :=
  String.mk ((splitOnChar '_' name.data).headD [])

/-- The tool-name component recovered by `callTool`
(source: `const toolName = rest.join('_')`). -/
def splitTool (name : String) : String :=
  String.mk (joinSep ['_'] (splitOnChar '_' name.data).tail)

/-- The tool router (part_001 lines 208-222): split the qualified name,
look the provider up, throw (modelled as `Except.error`) when it is absent,
otherwise delegate to the provider's connection with the recovered tool
name and the block's input. -/
def callTool (content : ToolUseContent) (clients : List (String × MCPClient)) :
    Except String String :=
  let serverName := splitServer content.name
  let toolName := splitTool content.name
  match lookupClient clients serverName with
  | none => .error ("Client for server " ++ serverName ++ " not found")
  | some cl => cl.invoke toolName content.input

theorem splitOnChar_ne_nil (sep : Char) : ∀ l : List Char, splitOnChar sep l ≠ [] := by
  intro l
  cases l with
  | nil => simp [splitOnChar]
  | cons c cs =>
      by_cases h : c = sep
      · simp [splitOnChar, h]
      · simp only [splitOnChar, h, if_false]
        cases splitOnChar sep cs <;> simp

theorem splitOnChar_append (sep : Char) :
    ∀ (xs ys : List Char), sep ∉ xs →
      splitOnChar sep (xs ++ sep :: ys) = xs :: splitOnChar sep ys := by
  intro xs
  induction xs with
  | nil => intro ys _; simp [splitOnChar]
  | cons c cs ih =>
      intro ys h
      have hc : ¬ c = sep := by
        intro hcs
        exact h (by simp [hcs])
      have hcs : sep ∉ cs := fun hm => h (List.mem_cons_of_mem _ hm)
      simp only [List.cons_append, splitOnChar, hc, if_false, List.append_eq]
      rw [ih ys hcs]

theorem joinSep_splitOnChar (sep : Char) :
    ∀ l : List Char, joinSep [sep] (splitOnChar sep l) = l := by
  intro l
  induction l with
  | nil => rfl
  | cons c cs ih =>
      by_cases h : c = sep
      · subst h
        simp only [splitOnChar, if_pos rfl]
        cases hs : splitOnChar c cs with
        | nil => exact absurd hs (splitOnChar_ne_nil c cs)
        | cons r rs =>
            rw [hs] at ih
            simp [joinSep, ih]
      · simp only [splitOnChar, h, if_false]
        cases hs : splitOnChar sep cs with
        | nil => exact absurd hs (splitOnChar_ne_nil sep cs)
        | cons r rs =>
            rw [hs] at ih
            cases rs with
            | nil =>
                simp only [joinSep] at ih ⊢
                rw [ih]
            | cons r2 rs2 =>
                simp only [joinSep, List.append_assoc, List.cons_append,
                  List.nil_append] at ih ⊢
                rw [ih]

theorem underscore_not_mem_normalize (l : List Char) : '_' ∉ normalizeChars l := by
  intro hmem
  simp only [normalizeChars, List.mem_map] at hmem
  obtain ⟨c, _, hc⟩ := hmem
  by_cases h : c = '_'
  · rw [if_pos h] at hc
    exact absurd hc (by decide)
  · rw [if_neg h] at hc
    exact h hc

theorem strMk_data (s : String) : String.mk s.data = s := by
  cases s
  rfl

/-- C5: registering a tool as `<normalizedProviderName>_<rawToolName>`
(provider underscores replaced by hyphens) and routing a call on that
qualified name recovers exactly the normalized provider name and the
original raw tool name - splitting at the FIRST underscore works because
normalization removed every underscore from the provider part, and
rejoining the remaining segments restores a tool name that itself contains
underscores.  When no provider with the recovered name exists, `callTool`
fails with the routing error instead of silently dropping the call;
otherwise it delegates to that provider's connection with the recovered
tool name and the block's input. -/
theorem C5_tool_routing (provider rawTool id input : String)
    (clients : List (String × MCPClient)) :
    splitServer (qualifyToolName provider rawTool) = normalizeServerName provider
    ∧ splitTool (qualifyToolName provider rawTool) = rawTool
    ∧ callTool ⟨id, qualifyToolName provider rawTool, input⟩ clients
        = (match lookupClient clients (normalizeServerName provider) with
           | none => .error ("Client for server " ++ normalizeServerName provider ++ " not found")
           | some cl => cl.invoke rawTool input) := by
  have hdata : (qualifyToolName provider rawTool).data
      = normalizeChars provider.data ++ '_' :: rawTool.data := rfl
  have hsplit : splitOnChar '_' (qualifyToolName provider rawTool).data
      = normalizeChars provider.data :: splitOnChar '_' rawTool.data := by
    rw [hdata]
    exact splitOnChar_append '_' _ _ (underscore_not_mem_normalize provider.data)
  have hs : splitServer (qualifyToolName provider rawTool) = normalizeServerName provider := by
    unfold splitServer
    rw [hsplit]
    rfl
  have ht : splitTool (qualifyToolName provider rawTool) = rawTool := by
    unfold splitTool
    rw [hsplit]
    simp only [List.tail_cons]
    rw [joinSep_splitOnChar]
  refine ⟨hs, ht, ?_⟩
  show (match lookupClient clients (splitServer (qualifyToolName provider rawTool)) with
        | none => Except.error ("Client for server "
                    ++ splitServer (qualifyToolName provider rawTool) ++ " not found")
        | some cl => cl.invoke (splitTool (qualifyToolName provider rawTool)) input) = _
  rw [hs, ht]

/-! ## Attachment Resolver (part_000 `extractUrls` / `encodeImage`) -/

/-- Quote stripping applied to each matched reference (source:
`url.replace(/^['"]|['"]$/g, '')`): one leading and one trailing single or
double quote are removed. -/
def stripQuotes (s : List Char) : List Char :=
  let s1 := match s with
    | c :: rest => if c = '\'' ∨ c = '"' then rest else c :: rest
    | [] => []
  match s1.getLast? with
  | some c => if c = '\'' ∨ c = '"' then s1.dropLast else s1
  | none => s1

/-- The suffix of a character list starting at its LAST `'.'` (dot
included), `none` when there is no dot - the model of
`url.slice(url.lastIndexOf('.'))` guarded by `lastIndexOf !== -1`. -/
def suffixFromLastDot : List Char → Option (List Char)
  | [] => none
  | c :: cs =>
      match suffixFromLastDot cs with
      | some suf => some suf
      | none => if c = '.' then some (c :: cs) else none

/-- The characters strictly after the last `'.'` - the "substring after the
last dot" of the spec's wording. -/
def afterLastDot : List Char → Option (List Char)
  | [] => none
  | c :: cs =>
      match afterLastDot cs with
      | some e => some e
      | none => if c = '.' then some cs else none

/-- Attachment kinds recognised by the resolver. -/
inductive AttachKind
  | image
  | document
deriving DecidableEq, Repr

/-- The dotted image extensions of the source
(`['.png', '.jpeg', '.jpg', '.webp', '.gif']`). -/
def imageExtList : List (List Char) :=
  [['.', 'p', 'n', 'g'], ['.', 'j', 'p', 'e', 'g'], ['.', 'j', 'p', 'g'],
   ['.', 'w', 'e', 'b', 'p'], ['.', 'g', 'i', 'f']]

/-- Classification of one already-stripped reference (the body of the
`extractUrls` loop after quote removal): no dot means not an attachment;
otherwise the dotted suffix is lowercased and looked up among the image
extensions, then compared with `.pdf`; anything else is ignored. -/
def classifyStripped (u : List Char) : Option AttachKind :=
  match suffixFromLastDot u with
  | none => none
  | some suf =>
      let ext := suf.map Char.toLower
      if ext ∈ imageExtList then some .image
      else if ext = ['.', 'p', 'd', 'f'] then some .document
      else none

/-- Classification of one matched reference (quote stripping then extension
dispatch), as performed per URL by `extractUrls`. -/
def classifyUrl (url : String) : Option AttachKind :=
  classifyStripped (stripQuotes url.data)

/-- Modelled from the spec's words (§4.1 and the claim): take the substring
after the last dot, lowercase it, classify `png/jpeg/jpg/webp/gif` as
image and `pdf` as document, ignore everything else and references without
a dot.  Stated on the already-unquoted reference text. -/
def claimClassify (ref : List Char) : Option AttachKind :=
  match afterLastDot ref with
  | none => none
  | some e =>
      let el := e.map Char.toLower
      if el = ['p', 'n', 'g'] ∨ el = ['j', 'p', 'e', 'g'] ∨ el = ['j', 'p', 'g']
          ∨ el = ['w', 'e', 'b', 'p'] ∨ el = ['g', 'i', 'f'] then some .image
      else if el = ['p', 'd', 'f'] then some .document
      else none

theorem suffix_eq_after_map :
    ∀ l : List Char, suffixFromLastDot l = (afterLastDot l).map (fun e => '.' :: e) := by
  intro l
  induction l with
  | nil => rfl
  | cons c cs ih =>
      simp only [suffixFromLastDot, afterLastDot, ih]
      cases h : afterLastDot cs with
      | some e => rfl
      | none =>
          simp only [Option.map_none']
          by_cases hc : c = '.'
          · subst hc
            have hnone : afterLastDot cs = none := h
            have : (afterLastDot cs).map (fun e => '.' :: e) = none := by
              rw [hnone]; rfl
            simp [hnone]
          · simp [hc]

theorem classifyStripped_eq_claim (u : List Char) :
    classifyStripped u = claimClassify u := by
  unfold classifyStripped claimClassify
  rw [suffix_eq_after_map]
  cases h : afterLastDot u with
  | none => rfl
  | some e =>
      have hdot : Char.toLower '.' = '.' := by decide
      simp [imageExtList, hdot]

/-- C8: for every matched reference, classification strips surrounding
quotes and then dispatches on the lowercased substring after the LAST dot:
png/jpeg/jpg/webp/gif classify as image, pdf as document, any other
extension - and any reference without a dot - is ignored without error;
in particular "photo.PNG" is classified as an image and "notes.TXT" is not
classified as an attachment. -/
theorem C8_extension_classification :
    (∀ ref : String, classifyUrl ref = claimClassify (stripQuotes ref.data))
    ∧ classifyUrl "photo.PNG" = some AttachKind.image
    ∧ classifyUrl "notes.TXT" = none := by
  refine ⟨fun ref => classifyStripped_eq_claim (stripQuotes ref.data), by decide, by decide⟩

/-! ## Image media type (part_000 `encodeImage` via `path.extname`) -/

/-- The final path segment (the part after the last `'/'`), the basename
`path.extname` works on (POSIX behaviour of the node `path` module). -/
def basenameChars (p : List Char) : List Char :=
  (p.reverse.takeWhile (fun c => c != '/')).reverse

/-- Model of node's `path.extname`: the dotted suffix starting at the
basename's last dot, or empty when the basename has no dot or its only
leading position is the dot (the dot-file rule: `extname(".png") = ""`). -/
def extnameChars (p : List Char) : List Char :=
  let b := basenameChars p
  match suffixFromLastDot b with
  | none => []
  | some suf => if suf.length = b.length then [] else suf

/-- The image media type produced by `encodeImage` (part_000 lines
302-312): the string `image/` followed by `path.extname(path).slice(1)`,
with no special-casing of any particular extension. -/
def encodeImageMediaType (p : String) : String :=
  "image/" ++ String.mk ((extnameChars p.data).drop 1)

theorem takeWhile_append_all (pr : Char → Bool) (l₁ l₂ : List Char)
    (h : ∀ c ∈ l₁, pr c = true) :
    (l₁ ++ l₂).takeWhile pr = l₁ ++ l₂.takeWhile pr := by
  induction l₁ with
  | nil => simp
  | cons c cs ih =>
      simp only [List.cons_append, List.takeWhile_cons, h c (List.mem_cons_self c cs)]
      rw [ih (fun x hx => h x (List.mem_cons_of_mem c hx))]
      simp

theorem basename_append (ys zs : List Char) (h : ∀ c ∈ zs, c ≠ '/') :
    basenameChars (ys ++ zs) = basenameChars ys ++ zs := by
  unfold basenameChars
  rw [List.reverse_append]
  rw [takeWhile_append_all _ zs.reverse ys.reverse
    (fun c hc => by simp [bne_iff_ne]; exact h c (List.mem_reverse.mp hc))]
  rw [List.reverse_append, List.reverse_reverse]

theorem suffixFromLastDot_none (l : List Char) (h : '.' ∉ l) :
    suffixFromLastDot l = none := by
  induction l with
  | nil => rfl
  | cons c cs ih =>
      have hc : ¬ c = '.' := fun he => h (by simp [he])
      have hcs : '.' ∉ cs := fun hm => h (List.mem_cons_of_mem _ hm)
      simp [suffixFromLastDot, ih hcs, hc]

theorem suffixFromLastDot_append (xs e : List Char) (h : '.' ∉ e) :
    suffixFromLastDot (xs ++ '.' :: e) = some ('.' :: e) := by
  induction xs with
  | nil => simp [suffixFromLastDot, suffixFromLastDot_none e h]
  | cons c cs ih => simp [suffixFromLastDot, ih]

theorem afterLastDot_append (xs e : List Char) (h : '.' ∉ e) :
    afterLastDot (xs ++ '.' :: e) = some e := by
  have h1 := suffixFromLastDot_append xs e h
  rw [suffix_eq_after_map] at h1
  cases ha : afterLastDot (xs ++ '.' :: e) with
  | none => rw [ha] at h1; exact absurd h1 (by simp)
  | some e2 =>
      rw [ha] at h1
      simp only [Option.map_some', Option.some.injEq, List.cons.injEq, true_and] at h1
      rw [h1]

/-- C9 counterexample: the reference "/.png" IS classified as an image (its
substring after the last dot is "png"), yet `path.extname` treats the
basename ".png" as a dot-file with no extension, so the produced media type
is "image/" - not "image/" followed by the reference's extension "png". -/
theorem C9_counterexample :
    classifyUrl "/.png" = some AttachKind.image
    ∧ afterLastDot (("/.png" : String).data) = some ['p', 'n', 'g']
    ∧ encodeImageMediaType "/.png" = "image/"
    ∧ ("image/" : String) ≠ "image/png" := by
  refine ⟨rfl, rfl, rfl, by decide⟩

/-- C9 amended: for every image reference whose extension follows a dot
that is NOT the first character of the reference's basename, the media
type is the string "image/" followed verbatim by the substring after the
last dot - in particular a reference ending in ".jpg" yields "image/jpg",
not "image/jpeg"; the only exception is a dot-file-style reference such as
"/.png", whose media type degenerates to "image/". -/
theorem C9_amended (stem e : List Char)
    (h1 : '.' ∉ e) (h2 : '/' ∉ e) (h3 : basenameChars stem ≠ []) :
    encodeImageMediaType (String.mk (stem ++ '.' :: e)) = "image/" ++ String.mk e
    ∧ afterLastDot (stem ++ '.' :: e) = some e := by
  refine ⟨?_, afterLastDot_append stem e h1⟩
  have hb : basenameChars (stem ++ '.' :: e) = basenameChars stem ++ '.' :: e := by
    apply basename_append
    intro c hc
    rcases List.mem_cons.mp hc with hce | hce
    · rw [hce]; decide
    · intro hslash
      rw [hslash] at hce
      exact h2 hce
  have hsuf : suffixFromLastDot (basenameChars (stem ++ '.' :: e)) = some ('.' :: e) := by
    rw [hb]
    exact suffixFromLastDot_append _ e h1
  have hlen : ¬ ('.' :: e).length = (basenameChars (stem ++ '.' :: e)).length := by
    rw [hb]
    simp only [List.length_append, List.length_cons]
    have : 0 < (basenameChars stem).length := List.length_pos.mpr h3
    omega
  have hext : extnameChars (stem ++ '.' :: e) = '.' :: e := by
    show (match suffixFromLastDot (basenameChars (stem ++ '.' :: e)) with
          | none => []
          | some suf =>
              if suf.length = (basenameChars (stem ++ '.' :: e)).length then []
              else suf) = '.' :: e
    rw [hsuf]
    show (if ('.' :: e).length = (basenameChars (stem ++ '.' :: e)).length then []
          else '.' :: e) = '.' :: e
    rw [if_neg hlen]
  show "image/" ++ String.mk ((extnameChars (stem ++ '.' :: e)).drop 1)
      = "image/" ++ String.mk e
  rw [hext]
  rfl

/-- C9 witness: the amended theorem applied to the concrete reference
"/photo.jpg", whose media type is "image/jpg" and not "image/jpeg". -/
theorem C9_witness :
    ('.' ∉ ['j', 'p', 'g'])
    ∧ ('/' ∉ ['j', 'p', 'g'])
    ∧ basenameChars (("/photo" : String).data) ≠ []
    ∧ encodeImageMediaType (String.mk (("/photo" : String).data ++ '.' :: ['j', 'p', 'g']))
        = "image/" ++ String.mk ['j', 'p', 'g']
    ∧ "image/" ++ String.mk ['j', 'p', 'g'] = "image/jpg"
    ∧ ("image/jpg" : String) ≠ "image/jpeg" := by
  refine ⟨by decide, by decide, by decide, ?_, by decide, by decide⟩
  exact (C9_amended ("/photo" : String).data ['j', 'p', 'g']
    (by decide) (by decide) (by decide)).1

end Connector
